import Mathlib

/-!
Verification of the magnet-to-cloud pipeline coordinator.

Two revisions of the coordinator exist in the repository; both are embedded:
* namespace `StreamUpload` — the `stream_upload.js` revision (RPC-polled piece
  bitmap gate, disk-space backpressure with hysteresis);
* namespace `Pipeline` — the later revision (metadata resolver, three-mode
  selector, per-mode download/upload drivers, progress reporter).

Pure functions of the source are translated directly; the event-driven parts
(timers, poll loops, interval callbacks) are embedded as explicit step
functions over small state types, driven by lists of observed events. The
outcomes of external effects (chunk PUTs, free-space sampling, engine exit
codes) are inputs to those step functions.
-/

namespace StreamUpload

/-- Constant `CHUNK_SIZE = 30 * 1024 * 1024` from stream_upload.js. -/
def CHUNK_SIZE : Nat := 30 * 1024 * 1024

/-- Constant `MIN_FREE_SPACE = 2 * 1024 * 1024 * 1024` (low watermark) from
stream_upload.js. -/
def MIN_FREE_SPACE : Nat := 2 * 1024 * 1024 * 1024

/-- Constant `LARGE_FILE_THRESHOLD = 14 * 1024 * 1024 * 1024` from
stream_upload.js. -/
def LARGE_FILE_THRESHOLD : Nat := 14 * 1024 * 1024 * 1024

/-- Binary expansion of one hex digit, most significant bit first: the
embedding of `parseInt(char, 16).toString(2).padStart(4, '0')` for a valid
hex digit. -/
def hexDigitBits (d : Fin 16) : List Bool :=
  [d.val.testBit 3, d.val.testBit 2, d.val.testBit 1, d.val.testBit 0]

/-- The full binary string built from the hex bitfield by the first loop of
`getUploadablePrefix`, in order. -/
def bitfieldBits (hexBitfield : List (Fin 16)) : List Bool :=
  (hexBitfield.map hexDigitBits).flatten

/-- The `continuousPieces` loop of `getUploadablePrefix`: count leading `1`
bits, stopping at the first `0`. -/
def countLeadingOnes : List Bool → Nat
  | [] => 0
  | b :: rest => if b then countLeadingOnes rest + 1 else 0

/-- Embedding of `getUploadablePrefix(hexBitfield, pieceLength, totalSize)`
from stream_upload.js: the empty bitfield returns 0 early; otherwise the
count of leading set bits times the piece length, capped at the total size. -/
def getUploadablePrefix (hexBitfield : List (Fin 16)) (pieceLength totalSize : Nat) : Nat :=
  if hexBitfield = [] then 0
  else min (countLeadingOnes (bitfieldBits hexBitfield) * pieceLength) totalSize

/-- Embedding of `getFreeSpace()`: a successful `df` sample yields its parsed
value, a failed sample yields `Infinity`, modelled as `none`. -/
def getFreeSpace (sample : Except Unit Nat) : Option Nat :=
  match sample with
  | .ok n => some n
  | .error _ => none

/-- JavaScript comparison `freeSpace < bound` where `freeSpace` may be
`Infinity` (`none`): `Infinity < bound` is false. -/
def spaceLt (freeSpace : Option Nat) (bound : Nat) : Bool :=
  match freeSpace with
  | none => false
  | some n => n < bound

/-- JavaScript comparison `freeSpace > bound` where `freeSpace` may be
`Infinity` (`none`): `Infinity > bound` is true. -/
def spaceGt (freeSpace : Option Nat) (bound : Nat) : Bool :=
  match freeSpace with
  | none => true
  | some n => bound < n

/-- Commands the backpressure controller issues to the download engine. -/
inductive BPCmd
  | pause
  | unpause
deriving DecidableEq

/-- Decision points of the backpressure controller inside the poll loop:
the tick-head pause check (`freeSpace < MIN_FREE_SPACE && !isPaused`) and the
post-chunk resume check (`isPaused` and `newFreeSpace > MIN_FREE_SPACE * 2`),
each with its observed free-space sample. -/
inductive BPEvent
  | pauseCheck (freeSpace : Option Nat)
  | resumeCheck (freeSpace : Option Nat)
deriving DecidableEq

/-- One backpressure decision, from stream_upload.js lines 146-176: returns
the new `isPaused` flag and the command issued, if any. -/
def bpStep (isPaused : Bool) : BPEvent → Bool × Option BPCmd
  | .pauseCheck fs =>
      if spaceLt fs MIN_FREE_SPACE && !isPaused then (true, some .pause)
      else (isPaused, none)
  | .resumeCheck fs =>
      if isPaused && spaceGt fs (MIN_FREE_SPACE * 2) then (false, some .unpause)
      else (isPaused, none)

/-- The controller run over a sequence of decision points, collecting the
issued commands. -/
def bpRun (isPaused : Bool) : List BPEvent → Bool × List BPCmd
  | [] => (isPaused, [])
  | e :: es =>
      let s := bpStep isPaused e
      let r := bpRun s.1 es
      (r.1, s.2.toList ++ r.2)

/-- A dispatched upload chunk: byte range `[start, stop)`. -/
structure Chunk where
  start : Nat
  stop : Nat
deriving DecidableEq

/-- Chunks dispatched by the inner
`while (uploadedBytes + CHUNK_SIZE <= uploadableEnd)` loop of the poll tick. -/
def uploadWhileChunks (uploadedBytes uploadableEnd : Nat) : List Chunk :=
  if h : uploadedBytes + CHUNK_SIZE ≤ uploadableEnd then
    ⟨uploadedBytes, uploadedBytes + CHUNK_SIZE⟩ ::
      uploadWhileChunks (uploadedBytes + CHUNK_SIZE) uploadableEnd
  else []
termination_by uploadableEnd - uploadedBytes
decreasing_by
  have hc : 0 < CHUNK_SIZE := by decide
  omega

/-- Value of `uploadedBytes` after the inner while loop of the poll tick. -/
def uploadWhileEnd (uploadedBytes uploadableEnd : Nat) : Nat :=
  if h : uploadedBytes + CHUNK_SIZE ≤ uploadableEnd then
    uploadWhileEnd (uploadedBytes + CHUNK_SIZE) uploadableEnd
  else uploadedBytes
termination_by uploadableEnd - uploadedBytes
decreasing_by
  have hc : 0 < CHUNK_SIZE := by decide
  omega

/-- The poll loop over the successive gate values returned by
`getUploadablePrefix` on each tick: every dispatched chunk is paired with the
gate value in force when it was dispatched. -/
def pollChunks (uploadedBytes : Nat) : List Nat → List (Nat × Chunk)
  | [] => []
  | g :: gs =>
      (uploadWhileChunks uploadedBytes g).map (fun c => (g, c)) ++
        pollChunks (uploadWhileEnd uploadedBytes g) gs

/-- Value of `uploadedBytes` after the poll loop has processed the given
gate values. -/
def pollEnd (uploadedBytes : Nat) : List Nat → Nat
  | [] => uploadedBytes
  | g :: gs => pollEnd (uploadWhileEnd uploadedBytes g) gs

/-- Chunks dispatched by the final-flush loop
`while (uploadedBytes < totalSize)` after the download completes. -/
def finalFlushChunks (uploadedBytes totalSize : Nat) : List Chunk :=
  if h : uploadedBytes < totalSize then
    ⟨uploadedBytes, min (uploadedBytes + CHUNK_SIZE) totalSize⟩ ::
      finalFlushChunks (min (uploadedBytes + CHUNK_SIZE) totalSize) totalSize
  else []
termination_by totalSize - uploadedBytes
decreasing_by
  have hc : 0 < CHUNK_SIZE := by decide
  omega

/-- A whole streaming run: the poll loop over the observed gate values, then
the final flush. The wait promise before the flush is resolved by any engine
close event (the exit code is not checked) or by an observed complete
status; `closePrefix` is the confirmed-downloaded byte prefix at that moment
— equal to `totalSize` exactly when the download had completed, possibly
smaller when the engine merely closed. The flush loop then uploads up to
`totalSize` regardless, so each flush chunk is paired with `closePrefix`,
the bytes actually confirmed downloaded when it is dispatched. -/
def streamingChunks (gates : List Nat) (closePrefix totalSize : Nat) : List (Nat × Chunk) :=
  pollChunks 0 gates ++
    (finalFlushChunks (pollEnd 0 gates) totalSize).map (fun c => (closePrefix, c))

/-- The successive values taken by the upload cursor `uploadedBytes` over a
streaming run: the initial 0 followed by the end offset of each dispatched
chunk, in dispatch order. -/
def cursorTrace (gates : List Nat) (closePrefix totalSize : Nat) : List Nat :=
  0 :: (streamingChunks gates closePrefix totalSize).map (fun e => e.2.stop)

/-- Helper predicate: the chunk list is contiguous starting at `u` — each
chunk starts where the cursor stood and moves it forward to its stop. -/
def chainFrom (u : Nat) : List Chunk → Prop
  | [] => True
  | c :: cs => c.start = u ∧ u ≤ c.stop ∧ chainFrom c.stop cs

/-- Helper: final cursor position after a contiguous chunk list. -/
def seqEnd (u : Nat) : List Chunk → Nat
  | [] => u
  | c :: cs => seqEnd c.stop cs

end StreamUpload

namespace Pipeline

/-- Constant `CHUNK_SIZE = 30 * 1024 * 1024` from the later revision. -/
def CHUNK_SIZE : Nat := 30 * 1024 * 1024

/-- Constant `LARGE_FILE_THRESHOLD = 13 * 1024 * 1024 * 1024` from the later
revision. -/
def LARGE_FILE_THRESHOLD : Nat := 13 * 1024 * 1024 * 1024

/-- The three pipeline strategies. -/
inductive Mode
  | normal
  | streaming
  | sequential
deriving DecidableEq

/-- Embedding of the mode decision in `main`:
`mode = !isLarge ? 'normal' : (isMultiFile ? 'sequential' : 'streaming')`
with `isLarge = totalSize > LARGE_FILE_THRESHOLD` and
`isMultiFile = fileCount > 1`. -/
def selectMode (totalSize fileCount : Nat) : Mode :=
  let isLarge := LARGE_FILE_THRESHOLD < totalSize
  let isMultiFile := 1 < fileCount
  if ¬ isLarge then .normal
  else if isMultiFile then .sequential
  else .streaming

/-- One entry of the explicit file listing parsed from
`aria2c --show-files` output. -/
structure FileEntry where
  index : Nat
  path : String
  size : Nat
deriving DecidableEq

/-- The resolved torrent metadata produced by `fetchMetadata`. -/
structure TorrentMetadata where
  fileName : String
  totalSize : Nat
  fileCount : Nat
  fileList : List FileEntry
deriving DecidableEq

/-- What the metadata fetch observed before it settled: whether the 120s
timeout fired before the metadata process closed, the fields scraped from the
engine output (`Name:`, `Total Length:`, `N files`), the explicit file
listing parsed from the saved torrent, and the saved torrent file stems. -/
structure MetaObs where
  timedOut : Bool
  parsedName : String
  parsedSize : Nat
  summaryCount : Nat
  listedFiles : List FileEntry
  torrentStems : List String
deriving DecidableEq

/-- Embedding of `fetchMetadata`: on timeout the promise resolves with the
placeholder `{fileName: 'download', totalSize: 1 GiB, fileCount: 1,
fileList: []}`; otherwise the close handler resolves with the scraped fields
(the explicit listing overriding the summary count when non-empty), falls
back to the torrent file stem with an assumed 1 GiB size, and rejects only
when neither is available. -/
def fetchMetadata (o : MetaObs) : Except String TorrentMetadata :=
  if o.timedOut then
    .ok { fileName := "download", totalSize := 1024 * 1024 * 1024,
          fileCount := 1, fileList := [] }
  else
    let fileCount := if 0 < o.listedFiles.length then o.listedFiles.length else o.summaryCount
    if o.parsedName ≠ "" ∧ 0 < o.parsedSize then
      .ok { fileName := o.parsedName, totalSize := o.parsedSize,
            fileCount := fileCount, fileList := o.listedFiles }
    else
      match o.torrentStems with
      | stem :: _ =>
          .ok { fileName := stem, totalSize := 1024 * 1024 * 1024,
                fileCount := fileCount, fileList := o.listedFiles }
      | [] => .error "Failed to get metadata"

/-- The chunk loop of `uploadToOneDrive` for large files: dispatch
consecutive chunks until `fileSize`; the outcome of each chunk PUT is given
by `outcome` at the chunk start offset; a raised error propagates at once to
the caller, ending the loop with no retry. Returns the final uploaded offset
on success. -/
def uploadLoopRun (outcome : Nat → Except String Unit) (uploaded fileSize : Nat) :
    Except String Nat :=
  if h : uploaded < fileSize then
    match outcome uploaded with
    | .error msg => .error msg
    | .ok _ => uploadLoopRun outcome (min (uploaded + CHUNK_SIZE) fileSize) fileSize
  else .ok uploaded
termination_by fileSize - uploaded
decreasing_by
  have hc : 0 < CHUNK_SIZE := by decide
  omega

/-- The inner chunk loop of the streaming poll tick
(`while (uploadedBytes + CHUNK_SIZE <= uploadEnd)`): returns the advanced
cursor and, when a chunk PUT raised, the raised message (the loop stops at
the first raise, which the tick-level catch will absorb). -/
def tickUploadLoop (outcome : Nat → Except String Unit) (uploadedBytes uploadEnd : Nat) :
    Nat × Option String :=
  if h : uploadedBytes + CHUNK_SIZE ≤ uploadEnd then
    match outcome uploadedBytes with
    | .error msg => (uploadedBytes, some msg)
    | .ok _ => tickUploadLoop outcome (min (uploadedBytes + CHUNK_SIZE) uploadEnd) uploadEnd
  else (uploadedBytes, none)
termination_by uploadEnd - uploadedBytes
decreasing_by
  have hc : 0 < CHUNK_SIZE := by decide
  omega

/-- Result of one streaming poll tick: the cursor after the tick, the error
that escaped the tick (always `none`: the whole callback body is wrapped in
try/catch), and the error that was caught and merely logged. -/
structure TickResult where
  uploadedBytes : Nat
  fatalError : Option String
  loggedError : Option String
deriving DecidableEq

/-- Embedding of the streaming-mode poll tick (`pollLoop` interval callback):
if enough new bytes are on disk (or the download reached the total size),
upload whole chunks up to `min downloadedBytes totalSize`; any error raised
inside is caught by the surrounding try/catch and only logged — it never
escapes the tick, and the cursor is left where the failure happened so the
same chunk is attempted again on the next tick. -/
def pollTick (outcome : Nat → Except String Unit)
    (uploadedBytes downloadedBytes totalSize uploadInterval : Nat) : TickResult :=
  if uploadInterval ≤ downloadedBytes - uploadedBytes ∨ totalSize ≤ downloadedBytes then
    let uploadEnd := min downloadedBytes totalSize
    let r := tickUploadLoop outcome uploadedBytes uploadEnd
    { uploadedBytes := r.1, fatalError := none, loggedError := r.2 }
  else
    { uploadedBytes := uploadedBytes, fatalError := none, loggedError := none }

/-- Terminal outcomes of the download supervisor. -/
inductive SupOutcome
  | complete
  | failed
  | stalled
  | timedOut
deriving DecidableEq

/-- Promise settle-once semantics: a later resolve/reject of an already
settled promise is a no-op. -/
def settle (cur : Option SupOutcome) (r : SupOutcome) : Option SupOutcome :=
  match cur with
  | some x => some x
  | none => some r

/-- State of the normal-mode download supervisor: the last forward-progress
timestamp, whether each timer is still pending, whether the engine process is
alive, the settled outcome, and how many times each pending timer has been
cancelled. -/
structure SupState where
  lastProgressTime : Nat
  maxTimerActive : Bool
  stallCheckerActive : Bool
  engineAlive : Bool
  outcome : Option SupOutcome
  maxTimerCancels : Nat
  stallCheckerCancels : Nat
deriving DecidableEq

/-- Initial supervisor state, at the moment both timers are installed. -/
def supInit : SupState :=
  { lastProgressTime := 0, maxTimerActive := true, stallCheckerActive := true,
    engineAlive := true, outcome := none, maxTimerCancels := 0,
    stallCheckerCancels := 0 }

/-- Events observed by the supervisor: an engine output line at time `t`
(`forward` when it showed forward motion: positive connection count or a
percentage increase), a stall-checker interval firing at time `t`, the
absolute max timer firing, and the engine process close with an exit code. -/
inductive SupEvent
  | progress (t : Nat) (forward : Bool)
  | stallTick (t : Nat)
  | maxFire (t : Nat)
  | close (exitCode : Nat)
deriving DecidableEq

/-- One supervisor transition, from `normalDownloadAndUpload`:
* a forward-progress output line refreshes `lastProgressTime`;
* a stall-checker firing past the stall budget clears both timers, kills the
  engine and rejects with the stalled outcome;
* the max timer firing kills the engine and rejects with the timeout outcome;
* process close clears both timers and settles by exit code.
Cancellation counters count only cancellations of a still-pending timer
(clearing an already cleared timer is a no-op). -/
def supStep (stallTimeout : Nat) (s : SupState) : SupEvent → SupState
  | .progress t forward =>
      if s.engineAlive && forward then { s with lastProgressTime := t } else s
  | .stallTick t =>
      if s.stallCheckerActive then
        if stallTimeout < t - s.lastProgressTime then
          { s with
            stallCheckerActive := false
            stallCheckerCancels := s.stallCheckerCancels + 1
            maxTimerActive := false
            maxTimerCancels := s.maxTimerCancels + (if s.maxTimerActive then 1 else 0)
            engineAlive := false
            outcome := settle s.outcome .stalled }
        else s
      else s
  | .maxFire _ =>
      if s.maxTimerActive then
        { s with maxTimerActive := false, engineAlive := false,
                 outcome := settle s.outcome .timedOut }
      else s
  | .close exitCode =>
      { s with
        engineAlive := false
        maxTimerActive := false
        maxTimerCancels := s.maxTimerCancels + (if s.maxTimerActive then 1 else 0)
        stallCheckerActive := false
        stallCheckerCancels := s.stallCheckerCancels + (if s.stallCheckerActive then 1 else 0)
        outcome := settle s.outcome (if exitCode = 0 then .complete else .failed) }

/-- The supervisor driven over an event list. -/
def supRun (stallTimeout : Nat) (s : SupState) : List SupEvent → SupState
  | [] => s
  | e :: es => supRun stallTimeout (supStep stallTimeout s e) es

/-- The supervisor state just after a stall-checker firing at time `t`, the
run having previously observed the events `pre`. -/
def supAfterStall (stallTimeout : Nat) (pre : List SupEvent) (t : Nat) : SupState :=
  supStep stallTimeout (supRun stallTimeout supInit pre) (.stallTick t)

deriving instance DecidableEq for Except

/-- What one sequential-mode cycle observed: whether the time budget was
already exceeded at the loop head, how the per-file download ended
(stall/timeout/non-zero exit are errors), and the relative path and size of
the produced file, if any was found on disk afterwards. -/
structure SeqCycleObs where
  elapsedExceeded : Bool
  downloadResult : Except String Unit
  producedFile : Option (String × Nat)
deriving DecidableEq

/-- One uploaded-file record appended by the sequential loop. -/
structure SeqRecord where
  name : String
  size : Nat
deriving DecidableEq

/-- Externally visible actions of a sequential-mode cycle: cleaning the
download directory, starting the engine restricted to one file index,
uploading the produced file, and deleting all local copies. -/
inductive SeqEv
  | cleanup
  | download (index : Nat)
  | upload (name : String)
  | deleteLocal
deriving DecidableEq

/-- The per-entry loop of `sequentialDownloadAndUpload` (the file list is
already non-empty), cycle `i` observing `obs i`: abort when the time budget
is exceeded, clean up, download with `--select-file` on exactly this entry's
index, propagate a download failure, skip the entry when no file appeared
(`continue`), otherwise upload it, record it, and delete local copies before
the next entry. Returns the uploaded-file records and the action trace. -/
def seqLoop (obs : Nat → SeqCycleObs) : Nat → List FileEntry →
    Except String (List SeqRecord × List SeqEv)
  | _, [] => .ok ([], [])
  | i, f :: fs =>
      let o := obs i
      if o.elapsedExceeded then .error "Max time exceeded"
      else
        match o.downloadResult with
        | .error e => .error e
        | .ok _ =>
            match o.producedFile with
            | none =>
                match seqLoop obs (i + 1) fs with
                | .error e => .error e
                | .ok (recs, evs) =>
                    .ok (recs, .cleanup :: .download f.index :: evs)
            | some pf =>
                match seqLoop obs (i + 1) fs with
                | .error e => .error e
                | .ok (recs, evs) =>
                    .ok ({ name := pf.1, size := pf.2 } :: recs,
                         .cleanup :: .download f.index :: .upload pf.1 ::
                           .deleteLocal :: evs)

/-- Number of file payloads present in the local download directory after an
action: cleanup and the post-upload delete remove everything, a download
materialises one payload. -/
def diskStep (n : Nat) : SeqEv → Nat
  | .cleanup => 0
  | .download _ => n + 1
  | .upload _ => n
  | .deleteLocal => 0

/-- The successive local payload counts along an action trace, starting
from `n`. -/
def diskTrace (n : Nat) : List SeqEv → List Nat
  | [] => [n]
  | e :: es => n :: diskTrace (diskStep n e) es

/-- The file indices passed to the engine, in order, along an action trace. -/
def downloadIndices : List SeqEv → List Nat
  | [] => []
  | .download i :: es => i :: downloadIndices es
  | _ :: es => downloadIndices es

/-- The expected record list for a run whose cycle `i` produces file
`pf i`: one record per entry, in listing order. -/
def expectedRecs (pf : Nat → String × Nat) : Nat → Nat → List SeqRecord
  | _, 0 => []
  | i, n + 1 => { name := (pf i).1, size := (pf i).2 } :: expectedRecs pf (i + 1) n

/-- The expected action trace for a fully successful sequential run: one
cleanup-download-upload-delete block per entry, in listing order. -/
def expectedEvs (pf : Nat → String × Nat) : Nat → List FileEntry → List SeqEv
  | _, [] => []
  | i, f :: fs =>
      .cleanup :: .download f.index :: .upload (pf i).1 :: .deleteLocal ::
        expectedEvs pf (i + 1) fs

/-- Constant `minInterval = 10000` of `createProgressReporter`. -/
def minInterval : Nat := 10000

/-- One submission to the progress reporter, from `createProgressReporter`:
drop it when not configured or when it arrives less than `minInterval` after
the last emission; otherwise stamp `lastReport` and attempt delivery. The
delivery outcome (`deliveryOk`) cannot influence the result: `lastReport` is
stamped before the attempt and a delivery failure is caught and ignored.
Returns the new `lastReport` and whether an emission was attempted. -/
def reporterStep (hasUrl hasTask : Bool) (lastReport now : Nat) (_deliveryOk : Bool) :
    Nat × Bool :=
  if !(hasUrl && hasTask) then (lastReport, false)
  else if now - lastReport < minInterval then (lastReport, false)
  else (now, true)

/-- The reporter over a list of submissions `(time, deliveryOk)`, collecting
the times at which emissions were attempted. -/
def reporterRun (hasUrl hasTask : Bool) (lastReport : Nat) :
    List (Nat × Bool) → Nat × List Nat
  | [] => (lastReport, [])
  | s :: rest =>
      let r := reporterStep hasUrl hasTask lastReport s.1 s.2
      let tail := reporterRun hasUrl hasTask r.1 rest
      (tail.1, (if r.2 then [s.1] else []) ++ tail.2)

end Pipeline

/-! ## Theorems -/

namespace StreamUpload

theorem countLeadingOnes_replicate_append (k : Nat) (rest : List Bool) :
    countLeadingOnes (List.replicate k true ++ rest) = k + countLeadingOnes rest := by
  induction k with
  | zero => simp [countLeadingOnes]
  | succ n ih =>
    rw [List.replicate_succ, List.cons_append]
    simp [countLeadingOnes, ih]
    omega

theorem countLeadingOnes_replicate (k : Nat) :
    countLeadingOnes (List.replicate k true) = k := by
  simpa [countLeadingOnes] using countLeadingOnes_replicate_append k []

theorem countLeadingOnes_of_run (k : Nat) (rest : List Bool)
    (hgap : rest = [] ∨ rest.head? = some false) :
    countLeadingOnes (List.replicate k true ++ rest) = k := by
  rcases hgap with h | h
  · subst h
    rw [List.append_nil, countLeadingOnes_replicate]
  · rcases rest with _ | ⟨b, t⟩
    · simp at h
    · simp only [List.head?] at h
      injection h with hb
      subst hb
      simp [countLeadingOnes_replicate_append, countLeadingOnes]

/-- C1: for every hex bitmap whose binary expansion is a leading run of `k`
set bits followed by nothing or by a clear bit (and then anything — later set
bits beyond the gap are ignored), every positive piece size `s`, and every
total size `S`, the piece-availability gate returns `min (k * s) S`; and the
empty bitmap yields 0. -/
theorem getUploadablePrefix_leading_run (hb : List (Fin 16)) (k s S : Nat)
    (hs : 0 < s) (rest : List Bool)
    (hbits : bitfieldBits hb = List.replicate k true ++ rest)
    (hgap : rest = [] ∨ rest.head? = some false) :
    getUploadablePrefix hb s S = min (k * s) S ∧
    getUploadablePrefix [] s S = 0 := by
  constructor
  · by_cases hnil : hb = []
    · subst hnil
      have hbits0 : (List.replicate k true ++ rest) = ([] : List Bool) := by
        rw [← hbits]; simp [bitfieldBits]
      have hk : k = 0 := by
        cases k with
        | zero => rfl
        | succ n => simp [List.replicate_succ] at hbits0
      subst hk
      simp [getUploadablePrefix]
    · rw [getUploadablePrefix, if_neg hnil, hbits, countLeadingOnes_of_run k rest hgap]
  · simp [getUploadablePrefix]

theorem getUploadablePrefix_leading_run_witness :
    getUploadablePrefix [(13 : Fin 16), (4 : Fin 16)] 1 100 = min (2 * 1) 100 ∧
    getUploadablePrefix [] 1 100 = 0 :=
  getUploadablePrefix_leading_run [(13 : Fin 16), (4 : Fin 16)] 2 1 100 (by decide)
    [false, true, false, true, false, false] (by decide) (Or.inr (by decide))

/-- C5: the backpressure controller pauses as soon as a sample is strictly
below the low watermark while unpaused; once paused it resumes exactly when a
sample strictly exceeds the high watermark (twice the low watermark); a
sample at or below the high watermark never resumes, and over any run of
decision points whose resume samples all stay at or below the high
watermark, the controller stays paused and issues no command. -/
theorem backpressure_hysteresis :
    (∀ n, n < MIN_FREE_SPACE → bpStep false (.pauseCheck (some n)) = (true, some .pause)) ∧
    (∀ fs, bpStep true (.resumeCheck fs) = (false, some .unpause) ↔
        spaceGt fs (MIN_FREE_SPACE * 2) = true) ∧
    (∀ n, n ≤ MIN_FREE_SPACE * 2 → bpStep true (.resumeCheck (some n)) = (true, none)) ∧
    (∀ events, (∀ fs, BPEvent.resumeCheck fs ∈ events →
        spaceGt fs (MIN_FREE_SPACE * 2) = false) →
      bpRun true events = (true, [])) := by
  refine ⟨?_, ?_, ?_, ?_⟩
  · intro n hn
    simp [bpStep, spaceLt, hn]
  · intro fs
    constructor
    · intro h
      by_contra hgt
      rw [Bool.not_eq_true] at hgt
      simp [bpStep, hgt] at h
    · intro hgt
      simp [bpStep, hgt]
  · intro n hn
    have hgt : spaceGt (some n) (MIN_FREE_SPACE * 2) = false := by
      simp [spaceGt]; omega
    simp [bpStep, hgt]
  · intro events
    induction events with
    | nil => intro _; rfl
    | cons e es ih =>
      intro h
      have hes : ∀ fs, BPEvent.resumeCheck fs ∈ es →
          spaceGt fs (MIN_FREE_SPACE * 2) = false :=
        fun fs hm => h fs (List.mem_cons_of_mem _ hm)
      cases e with
      | pauseCheck fs =>
        have hstep : bpStep true (.pauseCheck fs) = (true, none) := by
          simp [bpStep]
        simp [bpRun, hstep, ih hes]
      | resumeCheck fs =>
        have hgt : spaceGt fs (MIN_FREE_SPACE * 2) = false :=
          h fs (List.mem_cons_self _ _)
        have hstep : bpStep true (.resumeCheck fs) = (true, none) := by
          simp [bpStep, hgt]
        simp [bpRun, hstep, ih hes]

theorem backpressure_hysteresis_witness :
    bpStep false (.pauseCheck (some 0)) = (true, some .pause) ∧
    bpStep true (.resumeCheck (some (MIN_FREE_SPACE + 1))) = (true, none) ∧
    bpRun true [BPEvent.resumeCheck (some (MIN_FREE_SPACE + 1))] = (true, []) :=
  ⟨backpressure_hysteresis.1 0 (by decide),
   backpressure_hysteresis.2.2.1 (MIN_FREE_SPACE + 1) (by decide),
   backpressure_hysteresis.2.2.2 _ (by
      intro fs hm
      rcases List.mem_cons.mp hm with h | h
      · injection h with hfs
        subst hfs
        decide
      · cases h)⟩

/-- C10: a failed free-space sample yields `Infinity` (`none`), for which the
pause condition is false — a sampling failure can never pause the download —
and the resume condition is true, so while sampling keeps failing a paused
download is always eligible to resume. -/
theorem getFreeSpace_fail_open :
    getFreeSpace (.error ()) = none ∧
    spaceLt (getFreeSpace (.error ())) MIN_FREE_SPACE = false ∧
    (∀ p : Bool, bpStep p (.pauseCheck (getFreeSpace (.error ()))) = (p, none)) ∧
    spaceGt (getFreeSpace (.error ())) (MIN_FREE_SPACE * 2) = true ∧
    bpStep true (.resumeCheck (getFreeSpace (.error ()))) = (false, some .unpause) := by
  refine ⟨rfl, rfl, ?_, rfl, rfl⟩
  intro p
  cases p <;> rfl

end StreamUpload


namespace StreamUpload

theorem chainFrom_nil (u : Nat) : chainFrom u [] := True.intro

theorem chainFrom_cons (u : Nat) (c : Chunk) (cs : List Chunk) :
    chainFrom u (c :: cs) ↔ c.start = u ∧ u ≤ c.stop ∧ chainFrom c.stop cs := Iff.rfl

theorem uploadWhileChunks_mem (u g : Nat) :
    ∀ c ∈ uploadWhileChunks u g, c.stop ≤ g ∧ c.start < c.stop := by
  induction u, g using uploadWhileChunks.induct with
  | case1 u g h ih =>
    intro c hc
    rw [uploadWhileChunks, dif_pos h] at hc
    rcases List.mem_cons.mp hc with rfl | hc
    · refine ⟨h, ?_⟩
      show u < u + CHUNK_SIZE
      have hck : 0 < CHUNK_SIZE := by decide
      omega
    · exact ih c hc
  | case2 u g h =>
    intro c hc
    rw [uploadWhileChunks, dif_neg h] at hc
    cases hc

theorem chainFrom_uploadWhileChunks (u g : Nat) :
    chainFrom u (uploadWhileChunks u g) := by
  induction u, g using uploadWhileChunks.induct with
  | case1 u g h ih =>
    rw [uploadWhileChunks, dif_pos h, chainFrom_cons]
    exact ⟨rfl, Nat.le_add_right _ _, ih⟩
  | case2 u g h =>
    rw [uploadWhileChunks, dif_neg h]
    exact chainFrom_nil u

theorem seqEnd_nil (u : Nat) : seqEnd u [] = u := rfl

theorem seqEnd_cons (u : Nat) (c : Chunk) (cs : List Chunk) :
    seqEnd u (c :: cs) = seqEnd c.stop cs := rfl

theorem seqEnd_uploadWhileChunks (u g : Nat) :
    seqEnd u (uploadWhileChunks u g) = uploadWhileEnd u g := by
  induction u, g using uploadWhileChunks.induct with
  | case1 u g h ih =>
    rw [uploadWhileChunks, dif_pos h, uploadWhileEnd, dif_pos h, seqEnd_cons]
    exact ih
  | case2 u g h =>
    rw [uploadWhileChunks, dif_neg h, uploadWhileEnd, dif_neg h, seqEnd_nil]

theorem seqEnd_append (u : Nat) (l1 l2 : List Chunk) :
    seqEnd u (l1 ++ l2) = seqEnd (seqEnd u l1) l2 := by
  induction l1 generalizing u with
  | nil => rfl
  | cons c cs ih => simp [seqEnd, ih]

theorem chainFrom_append (u : Nat) (l1 l2 : List Chunk)
    (h1 : chainFrom u l1) (h2 : chainFrom (seqEnd u l1) l2) :
    chainFrom u (l1 ++ l2) := by
  induction l1 generalizing u with
  | nil => simpa [seqEnd] using h2
  | cons c cs ih =>
    rw [chainFrom_cons] at h1
    obtain ⟨hs, hle, hrest⟩ := h1
    rw [List.cons_append, chainFrom_cons]
    exact ⟨hs, hle, ih _ hrest h2⟩

theorem pollChunks_snd_map (u : Nat) (gs : List Nat) :
    (pollChunks u gs).map (fun e => e.2) =
      (match gs with
       | [] => []
       | g :: rest => uploadWhileChunks u g ++
           (pollChunks (uploadWhileEnd u g) rest).map (fun e => e.2)) := by
  cases gs with
  | nil => rfl
  | cons g rest => simp [pollChunks]

theorem chainFrom_pollChunks (gs : List Nat) :
    ∀ u : Nat, chainFrom u ((pollChunks u gs).map (fun e => e.2)) := by
  induction gs with
  | nil => intro u; exact chainFrom_nil u
  | cons g rest ih =>
    intro u
    rw [pollChunks_snd_map]
    refine chainFrom_append u _ _ (chainFrom_uploadWhileChunks u g) ?_
    rw [seqEnd_uploadWhileChunks]
    exact ih _

theorem seqEnd_pollChunks (gs : List Nat) :
    ∀ u : Nat, seqEnd u ((pollChunks u gs).map (fun e => e.2)) = pollEnd u gs := by
  induction gs with
  | nil => intro u; rfl
  | cons g rest ih =>
    intro u
    rw [pollChunks_snd_map, seqEnd_append, seqEnd_uploadWhileChunks]
    show seqEnd (uploadWhileEnd u g) ((pollChunks (uploadWhileEnd u g) rest).map (fun e => e.2))
      = pollEnd u (g :: rest)
    rw [ih, pollEnd]

theorem chainFrom_finalFlushChunks (u total : Nat) :
    chainFrom u (finalFlushChunks u total) := by
  induction u, total using finalFlushChunks.induct with
  | case1 u total h ih =>
    rw [finalFlushChunks, dif_pos h, chainFrom_cons]
    refine ⟨rfl, ?_, ih⟩
    exact Nat.le_min.mpr ⟨Nat.le_add_right _ _, Nat.le_of_lt h⟩
  | case2 u total h =>
    rw [finalFlushChunks, dif_neg h]
    exact chainFrom_nil u

theorem finalFlushChunks_mem (u total : Nat) :
    ∀ c ∈ finalFlushChunks u total, c.stop ≤ total := by
  induction u, total using finalFlushChunks.induct with
  | case1 u total h ih =>
    intro c hc
    rw [finalFlushChunks, dif_pos h] at hc
    rcases List.mem_cons.mp hc with rfl | hc
    · show min (u + CHUNK_SIZE) total ≤ total
      exact Nat.min_le_right _ _
    · exact ih c hc
  | case2 u total h =>
    intro c hc
    rw [finalFlushChunks, dif_neg h] at hc
    cases hc

theorem pollChunks_gate (gs : List Nat) :
    ∀ u : Nat, ∀ e ∈ pollChunks u gs, e.2.stop ≤ e.1 := by
  induction gs with
  | nil => intro u e he; cases he
  | cons g rest ih =>
    intro u e he
    rw [pollChunks] at he
    rcases List.mem_append.mp he with hm | hm
    · obtain ⟨c, hc, rfl⟩ := List.mem_map.mp hm
      exact (uploadWhileChunks_mem u g c hc).1
    · exact ih _ e hm

theorem chainFrom_chain (l : List Chunk) :
    ∀ u : Nat, chainFrom u l →
      List.Chain (fun a b => a ≤ b) u (l.map Chunk.stop) := by
  induction l with
  | nil => intro u _; exact List.Chain.nil
  | cons c cs ih =>
    intro u h
    rw [chainFrom_cons] at h
    obtain ⟨hs, hle, hrest⟩ := h
    exact List.Chain.cons hle (ih _ hrest)

/-- C4 counterexample: the claim that every dispatched chunk ends at or
before the confirmed-downloaded prefix fails on the early-close path. In the
concrete run where the engine closes before downloading anything (no poll
tick fired a chunk, confirmed prefix 0) with a total size of one chunk, the
final flush — which uploads to the total size unconditionally, because the
wait resolves on any engine close without checking completion — dispatches
the chunk `[0, CHUNK_SIZE)` whose end exceeds the confirmed prefix 0. -/
theorem streaming_flush_exceeds_prefix_counterexample :
    ¬ ∀ e ∈ streamingChunks [] 0 CHUNK_SIZE, e.2.stop ≤ e.1 := by
  intro hall
  have h1 : finalFlushChunks 0 CHUNK_SIZE = [⟨0, CHUNK_SIZE⟩] := by
    rw [finalFlushChunks, dif_pos (by decide : (0 : Nat) < CHUNK_SIZE)]
    have hm : min (0 + CHUNK_SIZE) CHUNK_SIZE = CHUNK_SIZE := by simp
    rw [hm, finalFlushChunks, dif_neg (by omega : ¬ CHUNK_SIZE < CHUNK_SIZE)]
  have hmem : ((0 : Nat), (⟨0, CHUNK_SIZE⟩ : Chunk)) ∈ streamingChunks [] 0 CHUNK_SIZE := by
    simp [streamingChunks, pollChunks, pollEnd, h1]
  have hc := hall _ hmem
  simp [CHUNK_SIZE] at hc

/-- C4 (amended): over every streaming run the upload cursor
`uploadedBytes` is monotonically non-decreasing across all updates, and
every chunk dispatched by the poll loop ends at or before the gate value in
force when it was dispatched; but the final flush uploads to the total size
unconditionally after the engine closes, so its chunks are within the
confirmed-downloaded prefix only when the close happened with the download
complete (confirmed prefix equal to the total size) — then every chunk of
the whole run, flush included, respects the gate. -/
theorem streaming_cursor_monotone_gated (gates : List Nat) (closePrefix totalSize : Nat) :
    List.Chain' (fun a b => a ≤ b) (cursorTrace gates closePrefix totalSize) ∧
    (∀ e ∈ pollChunks 0 gates, e.2.stop ≤ e.1) ∧
    (closePrefix = totalSize →
      ∀ e ∈ streamingChunks gates closePrefix totalSize, e.2.stop ≤ e.1) := by
  refine ⟨?_, ?_, ?_⟩
  · show List.Chain (fun a b => a ≤ b) 0
      ((streamingChunks gates closePrefix totalSize).map (fun e => e.2.stop))
    have hmap : (streamingChunks gates closePrefix totalSize).map (fun e => e.2.stop) =
        ((streamingChunks gates closePrefix totalSize).map (fun e => e.2)).map Chunk.stop := by
      simp
    rw [hmap]
    refine chainFrom_chain _ 0 ?_
    rw [streamingChunks, List.map_append]
    refine chainFrom_append 0 _ _ (chainFrom_pollChunks gates 0) ?_
    rw [seqEnd_pollChunks]
    have hmap2 : ((finalFlushChunks (pollEnd 0 gates) totalSize).map
        (fun c => (closePrefix, c))).map (fun e => e.2) =
        finalFlushChunks (pollEnd 0 gates) totalSize := by
      simp
    rw [hmap2]
    exact chainFrom_finalFlushChunks _ _
  · exact pollChunks_gate gates 0
  · intro hcp e he
    subst hcp
    rw [streamingChunks] at he
    rcases List.mem_append.mp he with hm | hm
    · exact pollChunks_gate gates 0 e hm
    · obtain ⟨c, hc, rfl⟩ := List.mem_map.mp hm
      exact finalFlushChunks_mem _ _ c hc

theorem streaming_cursor_monotone_gated_witness :
    List.Chain' (fun a b => a ≤ b)
      (cursorTrace [CHUNK_SIZE] (CHUNK_SIZE + 5) (CHUNK_SIZE + 5)) ∧
    (∀ e ∈ pollChunks 0 [CHUNK_SIZE], e.2.stop ≤ e.1) ∧
    (∀ e ∈ streamingChunks [CHUNK_SIZE] (CHUNK_SIZE + 5) (CHUNK_SIZE + 5),
      e.2.stop ≤ e.1) :=
  ⟨(streaming_cursor_monotone_gated [CHUNK_SIZE] (CHUNK_SIZE + 5) (CHUNK_SIZE + 5)).1,
   (streaming_cursor_monotone_gated [CHUNK_SIZE] (CHUNK_SIZE + 5) (CHUNK_SIZE + 5)).2.1,
   (streaming_cursor_monotone_gated [CHUNK_SIZE] (CHUNK_SIZE + 5) (CHUNK_SIZE + 5)).2.2 rfl⟩

end StreamUpload

namespace Pipeline

/-- C2: the mode selector follows the decision table: total size at or below
the threshold (including exactly the threshold) selects normal (bulk) mode
regardless of file count; above the threshold, file count 1 selects
streaming and file count above 1 selects sequential. -/
theorem selectMode_table (s c : Nat) :
    (s ≤ LARGE_FILE_THRESHOLD → selectMode s c = .normal) ∧
    (LARGE_FILE_THRESHOLD < s → c = 1 → selectMode s c = .streaming) ∧
    (LARGE_FILE_THRESHOLD < s → 1 < c → selectMode s c = .sequential) := by
  refine ⟨fun h => ?_, fun h hc => ?_, fun h hc => ?_⟩
  · have hns : ¬ LARGE_FILE_THRESHOLD < s := by omega
    simp [selectMode, hns]
  · subst hc
    simp [selectMode, h]
  · simp [selectMode, h, hc]

theorem selectMode_table_witness :
    selectMode LARGE_FILE_THRESHOLD 5 = .normal ∧
    selectMode (LARGE_FILE_THRESHOLD + 1) 1 = .streaming ∧
    selectMode (LARGE_FILE_THRESHOLD + 1) 8 = .sequential :=
  ⟨(selectMode_table LARGE_FILE_THRESHOLD 5).1 (Nat.le_refl _),
   (selectMode_table (LARGE_FILE_THRESHOLD + 1) 1).2.1 (Nat.lt_succ_self _) rfl,
   (selectMode_table (LARGE_FILE_THRESHOLD + 1) 8).2.2 (Nat.lt_succ_self _) (by omega)⟩

/-- C3: when the metadata fetch times out, `fetchMetadata` resolves (rather
than rejecting) with the conservative placeholder: assumed size 1 GiB and
file count 1. -/
theorem fetchMetadata_timeout_placeholder (o : MetaObs) (h : o.timedOut = true) :
    fetchMetadata o =
      .ok { fileName := "download", totalSize := 1024 * 1024 * 1024,
            fileCount := 1, fileList := [] } := by
  simp [fetchMetadata, h]

theorem fetchMetadata_timeout_placeholder_witness :
    fetchMetadata { timedOut := true, parsedName := "", parsedSize := 0,
                    summaryCount := 1, listedFiles := [], torrentStems := [] } =
      .ok { fileName := "download", totalSize := 1024 * 1024 * 1024,
            fileCount := 1, fileList := [] } :=
  fetchMetadata_timeout_placeholder _ rfl

/-- C6 counterexample: a chunk PUT failure inside the streaming poll tick is
not fatal — at a concrete state with one whole chunk available and a failing
PUT, the tick returns normally (no error escapes), the failure is merely
logged, and the cursor stays where it was (so the chunk is retried on the
next tick), refuting the claim that any failed chunk PUT propagates to the
top level and terminates the run with no retry. -/
theorem pollTick_swallows_failure_counterexample :
    pollTick (fun _ => .error "chunk PUT failed") 0 CHUNK_SIZE CHUNK_SIZE (CHUNK_SIZE / 10) =
      { uploadedBytes := 0, fatalError := none, loggedError := some "chunk PUT failed" } := by
  have hcond : CHUNK_SIZE / 10 ≤ CHUNK_SIZE - 0 ∨ CHUNK_SIZE ≤ CHUNK_SIZE := by
    right; exact Nat.le_refl _
  have hle : 0 + CHUNK_SIZE ≤ min CHUNK_SIZE CHUNK_SIZE := by simp
  have hloop : tickUploadLoop (fun _ => .error "chunk PUT failed") 0
      (min CHUNK_SIZE CHUNK_SIZE) = (0, some "chunk PUT failed") := by
    rw [tickUploadLoop, dif_pos hle]
  rw [pollTick, if_pos hcond]
  simp only [hloop]

/-- C6 (amended): a failed chunk PUT in the bulk and sequential upload path
(`uploadToOneDrive`) propagates immediately to the caller with no retry of
the chunk; but inside the streaming poll tick, a failed chunk PUT never
escapes — the tick-level catch logs it and leaves the cursor unchanged, so
the same chunk is attempted again on the next poll. -/
theorem upload_chunk_failure_handling :
    (∀ (outcome : Nat → Except String Unit) (u fs : Nat) (msg : String),
        u < fs → outcome u = .error msg → uploadLoopRun outcome u fs = .error msg) ∧
    (∀ (outcome : Nat → Except String Unit) (u d t iv : Nat),
        (pollTick outcome u d t iv).fatalError = none) ∧
    (∀ (outcome : Nat → Except String Unit) (u d t iv : Nat) (msg : String),
        iv ≤ d - u → u + CHUNK_SIZE ≤ min d t → outcome u = .error msg →
        pollTick outcome u d t iv =
          { uploadedBytes := u, fatalError := none, loggedError := some msg }) := by
  refine ⟨?_, ?_, ?_⟩
  · intro outcome u fs msg hu hout
    rw [uploadLoopRun, dif_pos hu, hout]
  · intro outcome u d t iv
    by_cases hcond : iv ≤ d - u ∨ t ≤ d
    · rw [pollTick, if_pos hcond]
    · rw [pollTick, if_neg hcond]
  · intro outcome u d t iv msg hiv hchunk hout
    have hcond : iv ≤ d - u ∨ t ≤ d := Or.inl hiv
    have hloop : tickUploadLoop outcome u (min d t) = (u, some msg) := by
      rw [tickUploadLoop, dif_pos hchunk, hout]
    rw [pollTick, if_pos hcond]
    simp only [hloop]

theorem upload_chunk_failure_handling_witness :
    uploadLoopRun (fun _ => .error "boom") 0 1 = .error "boom" ∧
    (pollTick (fun _ => .error "boom") 5 6 7 8).fatalError = none ∧
    pollTick (fun _ => .error "boom") 0 CHUNK_SIZE CHUNK_SIZE 0 =
      { uploadedBytes := 0, fatalError := none, loggedError := some "boom" } :=
  ⟨upload_chunk_failure_handling.1 (fun _ => .error "boom") 0 1 "boom" (by decide) rfl,
   upload_chunk_failure_handling.2.1 (fun _ => .error "boom") 5 6 7 8,
   upload_chunk_failure_handling.2.2 (fun _ => .error "boom") 0 CHUNK_SIZE CHUNK_SIZE 0
     "boom" (Nat.zero_le _) (by simp) rfl⟩

end Pipeline

namespace Pipeline

theorem settle_ne_none (cur : Option SupOutcome) (r : SupOutcome) :
    settle cur r ≠ none := by
  cases cur <;> simp [settle]

theorem settle_none (r : SupOutcome) : settle none r = some r := rfl

theorem supStep_live_inv (stallTimeout : Nat) (s : SupState) (e : SupEvent)
    (hs : s.outcome = none → s.maxTimerActive = true ∧ s.stallCheckerActive = true ∧
        s.maxTimerCancels = 0 ∧ s.stallCheckerCancels = 0) :
    (supStep stallTimeout s e).outcome = none →
      (supStep stallTimeout s e).maxTimerActive = true ∧
      (supStep stallTimeout s e).stallCheckerActive = true ∧
      (supStep stallTimeout s e).maxTimerCancels = 0 ∧
      (supStep stallTimeout s e).stallCheckerCancels = 0 := by
  intro h
  cases e with
  | progress t forward =>
    by_cases hc : (s.engineAlive && forward) = true
    · simp only [supStep, hc, if_true] at h ⊢
      exact hs h
    · simp only [supStep, hc] at h ⊢
      rw [if_neg (by simp [hc])] at h ⊢
      exact hs h
  | stallTick t =>
    by_cases h1 : s.stallCheckerActive = true
    · by_cases h2 : stallTimeout < t - s.lastProgressTime
      · exfalso
        simp only [supStep] at h
        rw [if_pos h1, if_pos h2] at h
        exact settle_ne_none s.outcome .stalled h
      · simp only [supStep] at h ⊢
        rw [if_pos h1, if_neg h2] at h ⊢
        exact hs h
    · simp only [supStep] at h ⊢
      rw [if_neg h1] at h ⊢
      exact hs h
  | maxFire t =>
    by_cases h1 : s.maxTimerActive = true
    · exfalso
      simp only [supStep, h1, if_true] at h
      exact settle_ne_none s.outcome .timedOut h
    · simp only [supStep] at h ⊢
      rw [if_neg h1] at h ⊢
      exact hs h
  | close exitCode =>
    exfalso
    simp only [supStep] at h
    exact settle_ne_none s.outcome _ h

theorem supRun_live_inv (stallTimeout : Nat) (evs : List SupEvent) :
    ∀ s : SupState,
    (s.outcome = none → s.maxTimerActive = true ∧ s.stallCheckerActive = true ∧
        s.maxTimerCancels = 0 ∧ s.stallCheckerCancels = 0) →
    (supRun stallTimeout s evs).outcome = none →
      (supRun stallTimeout s evs).maxTimerActive = true ∧
      (supRun stallTimeout s evs).stallCheckerActive = true ∧
      (supRun stallTimeout s evs).maxTimerCancels = 0 ∧
      (supRun stallTimeout s evs).stallCheckerCancels = 0 := by
  induction evs with
  | nil => intro s hs h; exact hs h
  | cons e es ih =>
    intro s hs h
    exact ih (supStep stallTimeout s e) (supStep_live_inv stallTimeout s e hs) h

theorem supStep_terminal_fixed (stallTimeout : Nat) (s : SupState) (r : SupOutcome)
    (ho : s.outcome = some r) (hm : s.maxTimerActive = false)
    (hsc : s.stallCheckerActive = false) (he : s.engineAlive = false) :
    ∀ e, supStep stallTimeout s e = s := by
  intro e
  obtain ⟨lp, mt, sa, ea, oc, mc, sc⟩ := s
  simp only at ho hm hsc he
  subst ho; subst hm; subst hsc; subst he
  cases e with
  | progress t forward => simp [supStep]
  | stallTick t => simp [supStep]
  | maxFire t => simp [supStep]
  | close exitCode => simp [supStep, settle]

theorem supRun_fixed (stallTimeout : Nat) (s : SupState)
    (hfix : ∀ e, supStep stallTimeout s e = s) :
    ∀ evs : List SupEvent, supRun stallTimeout s evs = s := by
  intro evs
  induction evs with
  | nil => rfl
  | cons e es ih =>
    show supRun stallTimeout (supStep stallTimeout s e) es = s
    rw [hfix e]
    exact ih

/-- C7: from any reachable still-running supervisor state, a stall-checker
firing whose elapsed time since the last forward progress exceeds the stall
budget settles the run with the distinguishable stalled outcome, kills the
engine, and cancels each pending timer exactly once; the resulting state is a
fixed point, so no timer firing (and no later event at all) has any further
effect. -/
theorem stalled_transition_cancels_timers (stallTimeout : Nat)
    (pre post : List SupEvent) (t : Nat)
    (hlive : (supRun stallTimeout supInit pre).outcome = none)
    (hstall : stallTimeout < t - (supRun stallTimeout supInit pre).lastProgressTime) :
    (supAfterStall stallTimeout pre t).outcome = some SupOutcome.stalled ∧
    (supAfterStall stallTimeout pre t).engineAlive = false ∧
    (supAfterStall stallTimeout pre t).maxTimerActive = false ∧
    (supAfterStall stallTimeout pre t).stallCheckerActive = false ∧
    (supAfterStall stallTimeout pre t).maxTimerCancels = 1 ∧
    (supAfterStall stallTimeout pre t).stallCheckerCancels = 1 ∧
    supRun stallTimeout (supAfterStall stallTimeout pre t) post
      = supAfterStall stallTimeout pre t := by
  obtain ⟨hmt, hsa, hmc, hsc⟩ := supRun_live_inv stallTimeout pre supInit
    (fun _ => ⟨rfl, rfl, rfl, rfl⟩) hlive
  have hstate : supAfterStall stallTimeout pre t =
      { supRun stallTimeout supInit pre with
        stallCheckerActive := false
        stallCheckerCancels := 1
        maxTimerActive := false
        maxTimerCancels := 1
        engineAlive := false
        outcome := some SupOutcome.stalled } := by
    rw [supAfterStall]
    simp only [supStep, hsa, if_true, if_pos hstall, hlive, settle_none, hmt, hmc, hsc,
      if_true]
  refine ⟨?_, ?_, ?_, ?_, ?_, ?_, ?_⟩
  · rw [hstate]
  · rw [hstate]
  · rw [hstate]
  · rw [hstate]
  · rw [hstate]
  · rw [hstate]
  · refine supRun_fixed stallTimeout _ ?_ post
    intro e
    refine supStep_terminal_fixed stallTimeout _ SupOutcome.stalled ?_ ?_ ?_ ?_ e <;>
      rw [hstate]

theorem stalled_transition_cancels_timers_witness :
    (supAfterStall 1800000 [] 1800001).outcome = some SupOutcome.stalled ∧
    (supAfterStall 1800000 [] 1800001).engineAlive = false ∧
    (supAfterStall 1800000 [] 1800001).maxTimerActive = false ∧
    (supAfterStall 1800000 [] 1800001).stallCheckerActive = false ∧
    (supAfterStall 1800000 [] 1800001).maxTimerCancels = 1 ∧
    (supAfterStall 1800000 [] 1800001).stallCheckerCancels = 1 ∧
    supRun 1800000 (supAfterStall 1800000 [] 1800001)
        [SupEvent.maxFire 1900000, SupEvent.stallTick 1900001, SupEvent.close 1]
      = supAfterStall 1800000 [] 1800001 :=
  stalled_transition_cancels_timers 1800000 []
    [SupEvent.maxFire 1900000, SupEvent.stallTick 1900001, SupEvent.close 1]
    1800001 rfl (by decide)

end Pipeline

namespace Pipeline

theorem seqLoop_success (obs : Nat → SeqCycleObs) (pf : Nat → String × Nat) :
    ∀ (files : List FileEntry) (start : Nat),
      (∀ i, i < files.length → (obs (start + i)).elapsedExceeded = false ∧
          (obs (start + i)).downloadResult = .ok () ∧
          (obs (start + i)).producedFile = some (pf (start + i))) →
      seqLoop obs start files =
        .ok (expectedRecs pf start files.length, expectedEvs pf start files) := by
  intro files
  induction files with
  | nil => intro start h; rfl
  | cons f fs ih =>
    intro start h
    have h0 := h 0 (Nat.succ_pos _)
    rw [Nat.add_zero] at h0
    obtain ⟨he, hd, hp⟩ := h0
    have hrest : ∀ i, i < fs.length → (obs (start + 1 + i)).elapsedExceeded = false ∧
        (obs (start + 1 + i)).downloadResult = .ok () ∧
        (obs (start + 1 + i)).producedFile = some (pf (start + 1 + i)) := by
      intro i hi
      have hh := h (i + 1) (by simpa using Nat.succ_lt_succ hi)
      have heq : start + (i + 1) = start + 1 + i := by omega
      rwa [heq] at hh
    simp [seqLoop, he, hd, hp, ih (start + 1) hrest, expectedRecs, expectedEvs]

theorem expectedRecs_length (pf : Nat → String × Nat) :
    ∀ n start : Nat, (expectedRecs pf start n).length = n := by
  intro n
  induction n with
  | zero => intro start; rfl
  | succ m ih => intro start; simp [expectedRecs, ih]

theorem downloadIndices_expectedEvs (pf : Nat → String × Nat) :
    ∀ (files : List FileEntry) (start : Nat),
      downloadIndices (expectedEvs pf start files) = files.map FileEntry.index := by
  intro files
  induction files with
  | nil => intro start; rfl
  | cons f fs ih => intro start; simp [expectedEvs, downloadIndices, ih]

theorem diskTrace_expectedEvs_le_one (pf : Nat → String × Nat) :
    ∀ (files : List FileEntry) (start n : Nat), n ≤ 1 →
      ∀ x ∈ diskTrace n (expectedEvs pf start files), x ≤ 1 := by
  intro files
  induction files with
  | nil =>
    intro start n hn x hx
    simp [expectedEvs, diskTrace] at hx
    omega
  | cons f fs ih =>
    intro start n hn x hx
    simp only [expectedEvs, diskTrace, diskStep, List.mem_cons] at hx
    rcases hx with rfl | rfl | rfl | rfl | hx
    · exact hn
    · exact Nat.zero_le _
    · exact Nat.le_refl _
    · exact Nat.le_refl _
    · exact ih (start + 1) 0 (Nat.zero_le _) x hx

/-- C8: in sequential mode, when every cycle succeeds (time budget not
exceeded, per-file download succeeds, a file is produced), the loop over a
non-empty file list of n entries performs exactly n
cleanup-download-upload-delete cycles in listing order, each download
restricted to exactly that entry's index, appends exactly one uploaded-file
record per entry, and along the whole action trace at most one file payload
is present on local disk at a time. -/
theorem sequential_cycles (files : List FileEntry) (obs : Nat → SeqCycleObs)
    (pf : Nat → String × Nat)
    (hok : ∀ i, i < files.length → (obs i).elapsedExceeded = false ∧
        (obs i).downloadResult = .ok () ∧ (obs i).producedFile = some (pf i)) :
    seqLoop obs 0 files = .ok (expectedRecs pf 0 files.length, expectedEvs pf 0 files) ∧
    (expectedRecs pf 0 files.length).length = files.length ∧
    downloadIndices (expectedEvs pf 0 files) = files.map FileEntry.index ∧
    ∀ x ∈ diskTrace 0 (expectedEvs pf 0 files), x ≤ 1 := by
  refine ⟨?_, expectedRecs_length pf files.length 0,
    downloadIndices_expectedEvs pf files 0,
    diskTrace_expectedEvs_le_one pf files 0 0 (Nat.zero_le _)⟩
  apply seqLoop_success
  intro i hi
  simpa using hok i hi

theorem sequential_cycles_witness :
    seqLoop (fun _ => (⟨false, .ok (), some ("movie/part1.mkv", 5)⟩ : SeqCycleObs))
      0 [(⟨3, "movie/part1.mkv", 5⟩ : FileEntry), ⟨7, "movie/part2.mkv", 9⟩] =
      .ok (expectedRecs (fun _ => ("movie/part1.mkv", 5)) 0 2,
           expectedEvs (fun _ => ("movie/part1.mkv", 5)) 0
             [(⟨3, "movie/part1.mkv", 5⟩ : FileEntry), ⟨7, "movie/part2.mkv", 9⟩]) ∧
    (expectedRecs (fun _ => ("movie/part1.mkv", 5)) 0 2).length = 2 ∧
    downloadIndices (expectedEvs (fun _ => ("movie/part1.mkv", 5)) 0
        [(⟨3, "movie/part1.mkv", 5⟩ : FileEntry), ⟨7, "movie/part2.mkv", 9⟩]) =
      [(⟨3, "movie/part1.mkv", 5⟩ : FileEntry), ⟨7, "movie/part2.mkv", 9⟩].map
        FileEntry.index ∧
    ∀ x ∈ diskTrace 0 (expectedEvs (fun _ => ("movie/part1.mkv", 5)) 0
        [(⟨3, "movie/part1.mkv", 5⟩ : FileEntry), ⟨7, "movie/part2.mkv", 9⟩]), x ≤ 1 :=
  sequential_cycles
    [(⟨3, "movie/part1.mkv", 5⟩ : FileEntry), ⟨7, "movie/part2.mkv", 9⟩]
    (fun _ => (⟨false, .ok (), some ("movie/part1.mkv", 5)⟩ : SeqCycleObs))
    (fun _ => ("movie/part1.mkv", 5))
    (fun _ _ => ⟨rfl, rfl, rfl⟩)

theorem reporterStep_drop (h1 h2 : Bool) (lastReport t : Nat) (ok : Bool)
    (h : t - lastReport < minInterval) :
    reporterStep h1 h2 lastReport t ok = (lastReport, false) := by
  cases h1 <;> cases h2 <;> simp [reporterStep, h]


theorem reporterRun_emissions_chain (subs : List (Nat × Bool)) :
    ∀ lastReport : Nat, List.Chain (fun a b => a + minInterval ≤ b) lastReport
      (reporterRun true true lastReport subs).2 := by
  induction subs with
  | nil => intro lastReport; exact List.Chain.nil
  | cons s rest ih =>
    intro lastReport
    by_cases hc : s.1 - lastReport < minInterval
    · have hstep : reporterStep true true lastReport s.1 s.2 = (lastReport, false) :=
        reporterStep_drop true true lastReport s.1 s.2 hc
      simp only [reporterRun, hstep, List.nil_append]
      exact ih lastReport
    · have hstep : reporterStep true true lastReport s.1 s.2 = (s.1, true) := by
        simp [reporterStep, hc]
      simp only [reporterRun, hstep, List.singleton_append]
      have hmi : 0 < minInterval := by decide
      have hle : lastReport + minInterval ≤ s.1 := by omega
      exact List.Chain.cons hle (ih s.1)

theorem reporterRun_outcome_independent (h1 h2 : Bool) (subs : List (Nat × Bool)) :
    ∀ lastReport : Nat, reporterRun h1 h2 lastReport subs =
      reporterRun h1 h2 lastReport (subs.map (fun s => (s.1, true))) := by
  induction subs with
  | nil => intro lastReport; rfl
  | cons s rest ih =>
    intro lastReport
    simp only [List.map_cons, reporterRun]
    rw [show reporterStep h1 h2 lastReport s.1 s.2
          = reporterStep h1 h2 lastReport s.1 true from rfl,
        ih ((reporterStep h1 h2 lastReport s.1 true).1)]

/-- C9: the progress reporter attempts at most one emission per 10-second
minimum interval — successive emission times are at least `minInterval`
apart; a submission arriving less than the interval after the last emission
is dropped with the state unchanged; and delivery outcomes (success or
failure) cannot influence the reporter: the run is identical whether every
delivery succeeds or not, and no error ever escapes to the caller. -/
theorem progress_reporter_rate_limited :
    (∀ (h1 h2 : Bool) (lastReport t : Nat) (ok : Bool), t - lastReport < minInterval →
        reporterStep h1 h2 lastReport t ok = (lastReport, false)) ∧
    (∀ (subs : List (Nat × Bool)) (lastReport : Nat),
        List.Chain (fun a b => a + minInterval ≤ b) lastReport
          (reporterRun true true lastReport subs).2) ∧
    (∀ (h1 h2 : Bool) (subs : List (Nat × Bool)) (lastReport : Nat),
        reporterRun h1 h2 lastReport subs =
          reporterRun h1 h2 lastReport (subs.map (fun s => (s.1, true)))) :=
  ⟨fun h1 h2 l t ok h => reporterStep_drop h1 h2 l t ok h,
   fun subs l => reporterRun_emissions_chain subs l,
   fun h1 h2 subs l => reporterRun_outcome_independent h1 h2 subs l⟩

theorem progress_reporter_rate_limited_witness :
    reporterStep true true 0 5000 true = (0, false) ∧
    List.Chain (fun a b => a + minInterval ≤ b) 0
      (reporterRun true true 0 [(10000, true), (15000, false), (20000, false)]).2 ∧
    reporterRun true true 0 [(10000, false)] =
      reporterRun true true 0 ([(10000, false)].map (fun s => (s.1, true))) :=
  ⟨progress_reporter_rate_limited.1 true true 0 5000 true (by decide),
   progress_reporter_rate_limited.2.1 [(10000, true), (15000, false), (20000, false)] 0,
   progress_reporter_rate_limited.2.2 true true [(10000, false)] 0⟩

end Pipeline
